import Mathlib

/-!
Verification development for the tender ingestion pipeline
(`scraper/tender_scraper.py` of the Tender-API repository).

The Python source is shallowly embedded: dict-shaped records become
structures with `Option` fields, timestamps become integers counting
seconds, `None`-able values become `Option`, and every fallible library
call is represented by an `Option`-returning Lean function.  The pandas
flexible date parser (`pd.to_datetime` without a format argument) is an
external library whose behaviour the settled claims never depend on; it is
kept as an explicit function parameter `flex` so every theorem holds for
all of its possible behaviours.
-/

namespace TenderScraper

/-! ### Character and list helpers -/

/-- Whitespace characters recognised by Python's `str.split`, `str.strip`
and the `\s` class of the `re` module (ASCII range). -/
def isPySpace (c : Char) : Bool :=
  c == ' ' || c == '\t' || c == '\n' || c == '\r' || c == '\x0b' || c == '\x0c'

/-- True when `pat` is an initial segment of `s`. -/
def matchesAt : List Char → List Char → Bool
  | [], _ => true
  | _ :: _, [] => false
  | p :: ps, c :: cs => p == c && matchesAt ps cs

/-- Python's `pat in s` substring membership test. -/
def containsSub (pat : List Char) : List Char → Bool
  | [] => pat.isEmpty
  | c :: rest => matchesAt pat (c :: rest) || containsSub pat rest

/-- Drop a leading run of Python whitespace. -/
def dropWsRun : List Char → List Char
  | [] => []
  | c :: rest => if isPySpace c then dropWsRun rest else c :: rest

/-- Python's `str.strip()`: remove whitespace from both ends. -/
def pyStrip (s : List Char) : List Char :=
  (dropWsRun (dropWsRun s).reverse).reverse

/-- Sum of the lengths of a list of chunks. -/
def sumLen (l : List (List Char)) : Nat := (l.map List.length).sum

/-- Concatenation of a list of chunks. -/
def joinChunks (l : List (List Char)) : List Char := l.flatten

/-! ### Date normalizer: `TenderScraper._parse_kenyan_date`

The function first rejects placeholder text, then strips formatting noise,
then tries an ordered list of explicit `strptime` formats via
`pd.to_datetime(date_str, format=fmt)`, and finally falls back to the
flexible pandas parser.  The explicit formats are modelled after CPython's
`_strptime` regexes (two-digit-first alternations for `%d` and `%m`,
exactly four digits for `%Y`, longest-first case-insensitive month names
for `%B`/`%b`, and format whitespace matching a run of input whitespace).
Calendar validation mirrors `datetime`'s month-length rules; the narrower
representable range of `pandas.Timestamp` (years 1677-2262) is not
modelled, as no claim involves such extreme years. -/

/-- A calendar date as resolved by the date normalizer. -/
structure Ymd where
  year : Nat
  month : Nat
  day : Nat
deriving DecidableEq, Repr

/-- Placeholder tokens whose presence (case-insensitively) makes the
normalizer reject the whole string. -/
def blockTokens : List String := ["various", "multiple", "closing", "date", "www"]

/-- The rejection test on line 138 of the source: empty/falsy input, or any
blocklist token occurring in the lowercased text. -/
def blockedInput (s : String) : Bool :=
  s.data.isEmpty || blockTokens.any (fun t => containsSub t.data (s.data.map Char.toLower))

/-- One left-to-right pass of Python's `str.replace(pat, '')`, written with
explicit fuel so that it is structurally recursive; `removeSub` supplies
enough fuel for the whole string. -/
def removeSubAux (pat : List Char) : Nat → List Char → List Char
  | 0, s => s
  | _ + 1, [] => []
  | fuel + 1, c :: rest =>
    if matchesAt pat (c :: rest) then removeSubAux pat fuel ((c :: rest).drop pat.length)
    else c :: removeSubAux pat fuel rest

/-- Python's `s.replace(pat, '')` for a non-empty pattern. -/
def removeSub (pat s : List Char) : List Char := removeSubAux pat s.length s

/-- The substitution `re.sub(r'(\d)(st|nd|rd|th)', r'\1', s)`: scan left to
right, and at a digit followed by an ordinal suffix keep the digit, drop
the suffix, and resume after the match. -/
def removeOrdinals : List Char → List Char
  | a :: b :: c :: rest =>
    if a.isDigit && ((b == 's' && c == 't') || (b == 'n' && c == 'd') ||
        (b == 'r' && c == 'd') || (b == 't' && c == 'h')) then
      a :: removeOrdinals rest
    else
      a :: removeOrdinals (b :: c :: rest)
  | s => s

/-- Lines 143-147 of the source: remove time-of-day markers, ordinal
suffixes and commas, then strip surrounding whitespace.  The replacements
happen in the source's order. -/
def stripNoise (s : List Char) : List Char :=
  pyStrip ((removeOrdinals
    (removeSub "P.M.".data (removeSub "A.M.".data
      (removeSub "PM".data (removeSub "AM".data
        (removeSub "HRS".data (removeSub "hrs".data s))))))).filter (fun c => c != ','))

/-- Directives of the explicit `strptime` formats used by the source. -/
inductive Dir where
  | lit (c : Char)
  | gap
  | dayNum
  | monNum
  | yearNum
  | monFull
  | monAbbrName
deriving DecidableEq

/-- Partially accumulated `strptime` capture groups. -/
structure DateParts where
  day : Option Nat := none
  month : Option Nat := none
  year : Option Nat := none
deriving DecidableEq

/-- Numeric value of a decimal digit character. -/
def digitVal (c : Char) : Nat := c.toNat - 48

/-- Candidate matches for `%d`, in the order of the `_strptime` regex
alternation `(3[01]|[12]\d|0[1-9]|[1-9])`. -/
def dayAlts : List Char → List (Nat × List Char)
  | a :: b :: rest =>
    (if a == '3' && (b == '0' || b == '1') then [(30 + digitVal b, rest)] else []) ++
    (if (a == '1' || a == '2') && b.isDigit then [(digitVal a * 10 + digitVal b, rest)] else []) ++
    (if a == '0' && b.isDigit && b != '0' then [(digitVal b, rest)] else []) ++
    (if a.isDigit && a != '0' then [(digitVal a, b :: rest)] else [])
  | [a] => if a.isDigit && a != '0' then [(digitVal a, [])] else []
  | [] => []

/-- Candidate matches for `%m`, in the order of the `_strptime` regex
alternation `(1[0-2]|0[1-9]|[1-9])`. -/
def monAlts : List Char → List (Nat × List Char)
  | a :: b :: rest =>
    (if a == '1' && (b == '0' || b == '1' || b == '2') then [(10 + digitVal b, rest)] else []) ++
    (if a == '0' && b.isDigit && b != '0' then [(digitVal b, rest)] else []) ++
    (if a.isDigit && a != '0' then [(digitVal a, b :: rest)] else [])
  | [a] => if a.isDigit && a != '0' then [(digitVal a, [])] else []
  | [] => []

/-- Candidate matches for `%Y`: exactly four decimal digits. -/
def yearAlts : List Char → List (Nat × List Char)
  | a :: b :: c :: d :: rest =>
    if a.isDigit && b.isDigit && c.isDigit && d.isDigit then
      [(((digitVal a * 10 + digitVal b) * 10 + digitVal c) * 10 + digitVal d, rest)]
    else []
  | _ => []

/-- Full English month names paired with their number, ordered by length
descending as `_strptime` sorts its alternation. -/
def fullMonths : List (Nat × List Char) :=
  [(9, "september".data), (2, "february".data), (11, "november".data), (12, "december".data),
   (1, "january".data), (10, "october".data), (8, "august".data),
   (3, "march".data), (4, "april".data), (6, "june".data), (7, "july".data), (5, "may".data)]

/-- Abbreviated English month names paired with their number. -/
def abbrMonths : List (Nat × List Char) :=
  [(1, "jan".data), (2, "feb".data), (3, "mar".data), (4, "apr".data), (5, "may".data),
   (6, "jun".data), (7, "jul".data), (8, "aug".data), (9, "sep".data), (10, "oct".data),
   (11, "nov".data), (12, "dec".data)]

/-- Candidate matches of a month name (case-insensitive initial segment),
tried in the given order. -/
def nameAlts : List (Nat × List Char) → List Char → List (Nat × List Char)
  | [], _ => []
  | nm :: more, s =>
    (if (s.take nm.2.length).map Char.toLower == nm.2 then [(nm.1, s.drop nm.2.length)] else []) ++
    nameAlts more s

/-- All ways one directive can consume a prefix of the remaining input,
in the backtracking order of the compiled `_strptime` regex. -/
def stepDir (d : Dir) (st : DateParts × List Char) : List (DateParts × List Char) :=
  match d with
  | .lit c =>
    match st.2 with
    | a :: rest => if a == c then [(st.1, rest)] else []
    | [] => []
  | .gap =>
    match st.2 with
    | a :: rest => if isPySpace a then [(st.1, dropWsRun rest)] else []
    | [] => []
  | .dayNum => (dayAlts st.2).map (fun p => ({ st.1 with day := some p.1 }, p.2))
  | .monNum => (monAlts st.2).map (fun p => ({ st.1 with month := some p.1 }, p.2))
  | .yearNum => (yearAlts st.2).map (fun p => ({ st.1 with year := some p.1 }, p.2))
  | .monFull => (nameAlts fullMonths st.2).map (fun p => ({ st.1 with month := some p.1 }, p.2))
  | .monAbbrName => (nameAlts abbrMonths st.2).map (fun p => ({ st.1 with month := some p.1 }, p.2))

/-- Run all directives over all pending parser states; the resulting list
is ordered exactly as the regex engine would visit the alternatives, so
the first fully consumed state is the regex's match. -/
def runDirs : List Dir → List (DateParts × List Char) → List (DateParts × List Char)
  | [], states => states
  | d :: ds, states => runDirs ds (states.flatMap (stepDir d))

/-- Gregorian leap-year rule, as used by `datetime`. -/
def isLeapYear (y : Nat) : Bool := (y % 4 == 0 && y % 100 != 0) || y % 400 == 0

/-- Number of days in the given month. -/
def daysInMonth (y m : Nat) : Nat :=
  if m == 2 then (if isLeapYear y then 29 else 28)
  else if m == 4 || m == 6 || m == 9 || m == 11 then 30
  else 31

/-- Assemble the captured groups into a calendar date, enforcing the same
validity checks as constructing a `datetime`. -/
def buildYmd (p : DateParts) : Option Ymd :=
  match p.year, p.month, p.day with
  | some y, some m, some d =>
    if 1 ≤ y && 1 ≤ m && m ≤ 12 && 1 ≤ d && d ≤ daysInMonth y m then some ⟨y, m, d⟩ else none
  | _, _, _ => none

/-- One `pd.to_datetime(s, format=f)` attempt: the whole input must be
consumed, and the first full regex match is then validated as a date. -/
def matchFormat (f : List Dir) (s : List Char) : Option Ymd :=
  match (runDirs f [({}, s)]).find? (fun st => st.2.isEmpty) with
  | some st => buildYmd st.1
  | none => none

/-- The ordered list of explicit formats from lines 150-159 of the source:
`%d %B %Y`, `%B %d %Y`, `%d/%m/%Y`, `%Y-%m-%d`, `%d-%m-%Y`, `%d.%m.%Y`,
`%d %b %Y`, `%b %d %Y`. -/
def formats : List (List Dir) :=
  [[.dayNum, .gap, .monFull, .gap, .yearNum],
   [.monFull, .gap, .dayNum, .gap, .yearNum],
   [.dayNum, .lit '/', .monNum, .lit '/', .yearNum],
   [.yearNum, .lit '-', .monNum, .lit '-', .dayNum],
   [.dayNum, .lit '-', .monNum, .lit '-', .yearNum],
   [.dayNum, .lit '.', .monNum, .lit '.', .yearNum],
   [.dayNum, .gap, .monAbbrName, .gap, .yearNum],
   [.monAbbrName, .gap, .dayNum, .gap, .yearNum]]

/-- The source's loop over the explicit formats: the first format that
parses (and validates) wins. -/
def tryFormats (s : List Char) : Option Ymd :=
  formats.findSome? (fun f => matchFormat f s)

/-- The whole of `_parse_kenyan_date`.  `flex` stands for the flexible
pandas parser used as a last resort; a `none` from `flex` corresponds to
the exception that the source catches and turns into `None`. -/
def parseKenyanDate (flex : List Char → Option Ymd) (s : String) : Option Ymd :=
  if blockedInput s then none
  else
    match tryFormats (stripNoise s.data) with
    | some d => some d
    | none => flex (stripNoise s.data)

/-! ### Text truncation: `textwrap.shorten(text, width=w, placeholder="...")`

Model of CPython's `textwrap.shorten`, specialised to its use in the
source (`max_lines=1`, empty indents, placeholder `"..."`, all other
options at their defaults).  `shorten` first collapses all whitespace to
single spaces (`' '.join(text.strip().split())`) and then runs one
iteration of `TextWrapper._wrap_chunks`: greedily fill one line with
chunks, break an over-wide word (`_handle_long_word` with
`break_long_words`), drop a trailing whitespace chunk, and either return
the line whole (when everything fitted) or pop chunks until the
placeholder fits and append it.  Chunk splitting is modelled at
whitespace boundaries; the stdlib's additional splitting after hyphens
only refines the cut points inside a word and does not change the
truncation guarantees proved below. -/

/-- Python's `str.split()`: maximal whitespace-free words, in order. -/
def splitWs : List Char → List (List Char)
  | [] => []
  | [c] => if isPySpace c then [] else [[c]]
  | c :: d :: u =>
    if isPySpace c then splitWs (d :: u)
    else if isPySpace d then [c] :: splitWs (d :: u)
    else
      match splitWs (d :: u) with
      | [] => [[c]]
      | w :: ws => (c :: w) :: ws

/-- The chunk list that `TextWrapper._split` produces on whitespace-collapsed
text: the words separated by single-space chunks. -/
def chunksOfWords : List (List Char) → List (List Char)
  | [] => []
  | [w] => [w]
  | w :: rest => w :: [' '] :: chunksOfWords rest

/-- The whitespace collapse performed at the start of `textwrap.shorten`. -/
def collapseWs (s : List Char) : List Char :=
  joinChunks (chunksOfWords (splitWs s))

/-- A chunk that Python's `str.strip` maps to the empty string (all
whitespace, or already empty). -/
def isWsChunk (c : List Char) : Bool := c.all (fun x => x == ' ')

/-- The greedy loop of `_wrap_chunks`: move chunks onto the current line
while they fit within the width. -/
def greedySplit (w : Nat) : List (List Char) → List (List Char) → List (List Char) × List (List Char)
  | cur, [] => (cur, [])
  | cur, c :: rest =>
    if sumLen cur + c.length ≤ w then greedySplit w (cur ++ [c]) rest
    else (cur, c :: rest)

/-- The `_handle_long_word` step (with `break_long_words`): when the next
chunk alone exceeds the width, move its first `width - cur_len` characters
onto the line. -/
def handleLongWord (w : Nat) (cur rest : List (List Char)) : List (List Char) × List (List Char) :=
  match rest with
  | [] => (cur, [])
  | c :: cs =>
    if w < c.length then
      let spaceLeft := w - sumLen cur
      (cur ++ [c.take spaceLeft], c.drop spaceLeft :: cs)
    else (cur, c :: cs)

/-- Removal of one trailing whitespace chunk from the current line. -/
def dropTrailingWs (cur : List (List Char)) : List (List Char) :=
  match cur.getLast? with
  | some lc => if isWsChunk lc then cur.dropLast else cur
  | none => cur

/-- The truncation marker used throughout the formatter. -/
def ellipsis : List Char := ['.', '.', '.']

/-- True when a character list ends with the truncation marker `"..."`. -/
def endsWithDots (l : List Char) : Bool := decide (l.drop (l.length - 3) = ellipsis)

/-- The placeholder loop of `_wrap_chunks`, acting on the reversed current
line: pop chunks from the end until a non-whitespace chunk remains and the
placeholder fits, then append the placeholder; `none` means the line was
exhausted (the result is then the bare placeholder). -/
def placeholderRev (w : Nat) : List (List Char) → Option (List Char)
  | [] => none
  | c :: rest =>
    if !isWsChunk c && sumLen (c :: rest) + ellipsis.length ≤ w then
      some (joinChunks (c :: rest).reverse ++ ellipsis)
    else placeholderRev w rest

/-- One `max_lines = 1` iteration of `_wrap_chunks` over the chunk list of
a whitespace-collapsed text (such inputs never need a second iteration). -/
def wrapChunksOne (w : Nat) (chunks : List (List Char)) : List Char :=
  match chunks with
  | [] => []
  | _ :: _ =>
    let gr := greedySplit w [] chunks
    let hl := handleLongWord w gr.1 gr.2
    let cur := dropTrailingWs hl.1
    match cur with
    | [] => []
    | _ :: _ =>
      if (hl.2.isEmpty || (hl.2.length == 1 && isWsChunk (hl.2.headD []))) && sumLen cur ≤ w then
        joinChunks cur
      else
        match placeholderRev w cur.reverse with
        | some out => out
        | none => ellipsis

/-- `textwrap.shorten(text, width=w, placeholder="...")` on character lists. -/
def shortenList (w : Nat) (text : List Char) : List Char :=
  wrapChunksOne w (chunksOfWords (splitWs text))

/-- `textwrap.shorten(text, width=w, placeholder="...")` on strings. -/
def pyShorten (w : Nat) (s : String) : String := ⟨shortenList w s.data⟩

/-! ### Record formatter: `TenderScraper._format_tender_for_mobile`

Date-valued dict entries are modelled by `DateField`: `absent` is a
missing, `None` or empty value (falsy under `tender.get(...)`),
`unparsable` is a present value on which `dateutil.parser.parse` raises
(an unparsable string, or a non-string such as the `datetime` objects the
read-side query passes in), and `parsed t` is a value that parses to the
instant `t`.  Timestamps are instants, so the source's timezone
conversion to EAT does not change them.  After the first normalisation
pass the stored value is either absent or a well-formed timestamp, so the
source's inner `except` branch that would set the status to `'unknown'`
has no corresponding case: it is unreachable.  The source's outer
`except` (which would return a partially formatted record) is likewise
not modelled, since no embedded operation can fail. -/

/-- A date-valued entry of the candidate dict. -/
inductive DateField where
  | absent
  | unparsable
  | parsed (t : Int)
deriving DecidableEq

/-- Lines 182-199 of the source: a present value is re-parsed and stored
back; a parse failure stores `None`. -/
def normalizeDateField : DateField → DateField
  | .unparsable => .absent
  | d => d

/-- The whole-day difference `(closing_date - now).days` (Python
`timedelta.days` floors towards minus infinity). -/
def daysBetween (now t : Int) : Int := Int.fdiv (t - now) 86400

/-- The status ladder on line 209 of the source. -/
def statusFor (d : Int) : String :=
  if d < 0 then "closed" else if d ≤ 7 then "closing_soon" else "open"

/-- A tender dict as handled by the formatter and the read-side query. -/
structure MobileTender where
  reference : Option String := none
  title : Option String := none
  description : Option String := none
  procuring_entity : Option String := none
  procurement_method : Option String := none
  category : Option String := none
  value : Option String := none
  currency : Option String := none
  document_url : Option String := none
  closing_date : DateField := .absent
  published_date : DateField := .absent
  source : Option String := none
  status : Option String := none
  days_remaining : Option Int := none
  last_updated : Option Int := none
  offline_available : Option Bool := none
deriving DecidableEq

/-- `TenderScraper._format_tender_for_mobile`, at the instant `now`. -/
def formatTenderForMobile (now : Int) (t : MobileTender) : MobileTender :=
  let cd := normalizeDateField t.closing_date
  let pd := normalizeDateField t.published_date
  let dr := match cd with
    | .parsed c => some (daysBetween now c)
    | _ => t.days_remaining
  let st := match cd with
    | .parsed c => some (statusFor (daysBetween now c))
    | _ => t.status
  let ttl := match t.title with
    | some s => if s.data.isEmpty then some s else some (pyShorten 100 s)
    | none => none
  let desc := match t.description with
    | some s => if s.data.isEmpty then some s else some (pyShorten 200 s)
    | none => none
  { t with
    closing_date := cd, published_date := pd,
    days_remaining := dr, status := st,
    title := ttl, description := desc,
    last_updated := some now, offline_available := some true }

/-! ### Persistence store: `TenderScraper._save_to_db`

The store is the list of rows of the `tenders` table in insertion order.
A candidate is the tender dict after the date conversion on lines
366-377, so its `closing_date` is the result of that parse: either a
timezone-naive `datetime` (what an explicit `strptime` format yields) or
a timezone-aware Timestamp (what the pipeline always yields, since the
formatter rewrites the date to an isoformat string with a +03:00 offset
and the flexible pandas parse returns it timezone-aware).  The
`DateTime` column of the SQLite dialect stores only the wall-clock
fields and drops `tzinfo`, so a stored value is always naive; and
Python's `==`/`!=` treats a naive and an aware datetime as never equal.
The `reference` column is declared `unique=True` (line 36 of the
source), so an insert whose reference duplicates any stored row's —
necessarily one of the other source, since the lookup found no match —
raises `IntegrityError`, is caught on line 415 and rolled back, leaving
the store unchanged.  `now` stands for `datetime.utcnow()` at the time
of the call (used for the `created_at`/`updated_at` column defaults and
the explicit `updated_at` bump). -/

/-- A Python datetime as it reaches the store layer.  The payload is the
wall-clock reading in seconds (for an aware value, the reading in its
attached zone — always +03:00 in this pipeline, so equality of the
payloads coincides with equality of instants among aware values).
Structural equality mirrors Python: two naive or two aware values are
equal exactly on equal readings, and a naive value never equals an
aware one. -/
inductive PyDateTime where
  | naive (t : Int)
  | aware (t : Int)
deriving DecidableEq

/-- The wall-clock value the SQLite `DateTime` column stores: the bind
processor formats the year..microsecond fields and drops `tzinfo`. -/
def dbNaive : PyDateTime → Int
  | .naive t => t
  | .aware t => t

/-- Python's `!=` between the stored (always timezone-naive) column value
and the incoming parse result: a naive and an aware datetime are never
equal, and `None` only equals `None`. -/
def pyNeStored : Option Int → Option PyDateTime → Bool
  | none, none => false
  | none, some _ => true
  | some _, none => true
  | some s, some (.naive t) => s != t
  | some _, some (.aware _) => true

/-- A candidate record as consumed by `_save_to_db` after date parsing. -/
structure Candidate where
  reference : Option String := none
  title : Option String := none
  description : Option String := none
  procuring_entity : Option String := none
  procurement_method : Option String := none
  category : Option String := none
  value : Option String := none
  currency : Option String := some "KES"
  document_url : Option String := none
  closing_date : Option PyDateTime := none
  published_date : Option PyDateTime := none
  source : Option String := none
deriving DecidableEq

/-- A row of the `tenders` table. -/
structure StoredRecord where
  reference : Option String := none
  title : Option String := none
  description : Option String := none
  procuring_entity : Option String := none
  procurement_method : Option String := none
  category : Option String := none
  value : Option String := none
  currency : Option String := none
  document_url : Option String := none
  closing_date : Option Int := none
  published_date : Option Int := none
  source : Option String := none
  is_processed : Bool := false
  created_at : Int := 0
  updated_at : Int := 0
deriving DecidableEq

/-- The lookup filter `filter_by(reference=..., source=...)` (SQLAlchemy
renders a `None` argument as an `IS NULL` test, which `Option` equality
captures). -/
def keyMatches (ref src : Option String) (r : StoredRecord) : Bool :=
  r.reference == ref && r.source == src

/-- The freshly constructed `TenderRecord` on lines 379-393, with the
column defaults for `is_processed`, `created_at` and `updated_at`; the
date columns keep only the naive wall-clock value (`tzinfo` is dropped
by the SQLite `DateTime` type on write). -/
def mkRecord (now : Int) (c : Candidate) : StoredRecord :=
  { reference := c.reference, title := c.title, description := c.description,
    procuring_entity := c.procuring_entity, procurement_method := c.procurement_method,
    category := c.category, value := c.value, currency := c.currency,
    document_url := c.document_url, closing_date := c.closing_date.map dbNaive,
    published_date := c.published_date.map dbNaive, source := c.source,
    is_processed := false, created_at := now, updated_at := now }

/-- Mutation of the row found by `.first()`: the first key match gets the
new closing date and a bumped `updated_at`; every other row is untouched. -/
def updateFirst (ref src : Option String) (cd : Option Int) (now : Int) :
    List StoredRecord → List StoredRecord
  | [] => []
  | r :: rs =>
    if keyMatches ref src r then { r with closing_date := cd, updated_at := now } :: rs
    else r :: updateFirst ref src cd now rs

/-- `TenderScraper._save_to_db`: insert when no key match exists — unless
the candidate's non-null reference duplicates a stored row's, in which
case the `unique=True` constraint on `reference` makes the insert raise
`IntegrityError`, which the handler on line 415 rolls back, leaving the
store unchanged; when a match exists, update its closing date (stored
naive) and `updated_at` only if the incoming closing date is truthy and
differs, under Python datetime equality, from the stored naive value. -/
def saveToDb (now : Int) (store : List StoredRecord) (c : Candidate) : List StoredRecord :=
  match store.find? (keyMatches c.reference c.source) with
  | none =>
    if c.reference.isSome && store.any (fun r => r.reference == c.reference) then store
    else store ++ [mkRecord now c]
  | some ex =>
    if c.closing_date.isSome && pyNeStored ex.closing_date c.closing_date then
      updateFirst c.reference c.source (c.closing_date.map dbNaive) now store
    else store

/-! ### Read-side query: `TenderScraper.get_mobile_tenders`

Filter comparisons follow SQL three-valued logic: a comparison or LIKE
against a `NULL` column is not true, so such rows are filtered out.  The
`ORDER BY closing_date ASC` runs on the default SQLite engine, which
places `NULL` values before all non-`NULL` values in ascending order; the
sort is modelled by `List.insertionSort` under that key order.  The dict
built for each row carries the raw `datetime` object in `closing_date`,
on which `dateutil.parser.parse` raises `TypeError` inside the formatter,
so a present closing date reaches the formatter as an unparsable field. -/

/-- The status filter on lines 452-468 (an unrecognised status string
applies no filter, and a falsy one skips the whole block). -/
def statusPass (now : Int) (status : Option String) (r : StoredRecord) : Bool :=
  match status with
  | none => true
  | some st =>
    if st.data.isEmpty then true
    else if st == "open" then
      match r.closing_date with
      | some c => decide (now < c)
      | none => false
    else if st == "closed" then
      match r.closing_date with
      | some c => decide (c ≤ now)
      | none => false
    else if st == "closing_soon" then
      match r.closing_date with
      | some c => decide (now < c) && decide (c ≤ now + 3 * 86400)
      | none => false
    else if st == "open_week" then
      match r.closing_date with
      | some c => decide (now < c) && decide (c ≤ now + 7 * 86400)
      | none => false
    else true

/-- The `category.ilike('%...%')` filter: case-insensitive substring
match, not true on a `NULL` column. -/
def categoryPass (category : Option String) (r : StoredRecord) : Bool :=
  match category with
  | none => true
  | some c =>
    if c.data.isEmpty then true
    else
      match r.category with
      | some f => containsSub (c.data.map Char.toLower) (f.data.map Char.toLower)
      | none => false

/-- The `procuring_entity.ilike('%...%')` filter. -/
def entityPass (entity : Option String) (r : StoredRecord) : Bool :=
  match entity with
  | none => true
  | some e =>
    if e.data.isEmpty then true
    else
      match r.procuring_entity with
      | some f => containsSub (e.data.map Char.toLower) (f.data.map Char.toLower)
      | none => false

/-- The `days_remaining` filter on lines 476-478 (applied whenever the
argument is not `None`, including zero). -/
def daysPass (now : Int) (daysRemaining : Option Int) (r : StoredRecord) : Bool :=
  match daysRemaining with
  | none => true
  | some n =>
    match r.closing_date with
    | some c => decide (c ≤ now + n * 86400)
    | none => false

/-- SQLite's ascending key order on a nullable column: `NULL` sorts before
every value. -/
def nullsFirstLe : Option Int → Option Int → Bool
  | none, _ => true
  | some _, none => false
  | some a, some b => decide (a ≤ b)

/-- The row order produced by `ORDER BY closing_date ASC` on SQLite. -/
def recLe (a b : StoredRecord) : Prop := nullsFirstLe a.closing_date b.closing_date = true

instance : DecidableRel recLe := fun a b =>
  instDecidableEqBool (nullsFirstLe a.closing_date b.closing_date) true

/-- The filtered and ordered row list of `get_mobile_tenders` before
formatting. -/
def queryRecords (now : Int) (store : List StoredRecord)
    (status category entity : Option String) (daysRemaining : Option Int) :
    List StoredRecord :=
  List.insertionSort recLe
    ((((store.filter (statusPass now status)).filter
        (categoryPass category)).filter
        (entityPass entity)).filter
        (daysPass now daysRemaining))

/-- The dict built for each row on lines 486-494 (only these seven keys
are populated; a stored `datetime` behaves as an unparsable date field
inside the formatter, see above). -/
def mkViewInput (r : StoredRecord) : MobileTender :=
  { reference := r.reference, title := r.title,
    procuring_entity := r.procuring_entity, category := r.category,
    closing_date := match r.closing_date with
      | some _ => .unparsable
      | none => .absent,
    document_url := r.document_url, source := r.source }

/-- `TenderScraper.get_mobile_tenders`: filter, order, format, and (when
`offline` is set) keep only views whose `offline_available` is truthy. -/
def getMobileTenders (now : Int) (store : List StoredRecord)
    (status category entity : Option String) (daysRemaining : Option Int)
    (offline : Bool) : List MobileTender :=
  ((queryRecords now store status category entity daysRemaining).map
      (fun r => formatTenderForMobile now (mkViewInput r))).filter
    (fun v => !offline || v.offline_available == some true)

/-! ### Fetcher: `TenderScraper._make_request`

Only the application-level HTTP 429 handling is modelled: the transport
retry (urllib3 `Retry`, bounded at 5 attempts on 5xx) lives below the
`session.get` call and never sees a 429, since 429 is not in its
`status_forcelist`.  `oracle n` is the upstream's response to the `n`-th
attempt; on a 429 the function sleeps for the `Retry-After` header value
(60 when absent) and re-issues the same request; any other response
terminates the call.  The recursion is measured by an explicit `fuel`
bound: a `none` result means the call has not terminated within `fuel`
attempts. -/

/-- An upstream HTTP response, with the parsed `Retry-After` header. -/
structure HttpResponse where
  status : Nat
  retryAfter : Option Nat := none

/-- `TenderScraper._make_request` as a step-indexed interpreter:
`makeRequest oracle fuel attempt slept` returns the attempt index and the
total seconds slept when the call returns within `fuel` attempts, and
`none` otherwise. -/
def makeRequest (oracle : Nat → HttpResponse) : Nat → Nat → Nat → Option (Nat × Nat)
  | 0, _, _ => none
  | fuel + 1, attempt, slept =>
    let r := oracle attempt
    if r.status == 429 then
      makeRequest oracle fuel (attempt + 1) (slept + (r.retryAfter.getD 60))
    else some (attempt, slept)

theorem nullsFirstLe_total (x y : Option Int) :
    nullsFirstLe x y = true ∨ nullsFirstLe y x = true := by
  cases x <;> cases y <;> simp [nullsFirstLe] <;> omega

theorem nullsFirstLe_trans (x y z : Option Int) (h1 : nullsFirstLe x y = true)
    (h2 : nullsFirstLe y z = true) : nullsFirstLe x z = true := by
  cases x <;> cases y <;> cases z <;> simp [nullsFirstLe] at * <;> omega

instance : IsTotal StoredRecord recLe :=
  ⟨fun a b => nullsFirstLe_total a.closing_date b.closing_date⟩

instance : IsTrans StoredRecord recLe :=
  ⟨fun a b c hab hbc =>
    nullsFirstLe_trans a.closing_date b.closing_date c.closing_date hab hbc⟩

/-! ### Store invariants used by the upsert claims -/

/-- The business key of a stored row. -/
def keyOf (r : StoredRecord) : Option String × Option String := (r.reference, r.source)

/-- No two rows of the store share a (reference, source) pair. -/
def uniqueKeys (store : List StoredRecord) : Prop := (store.map keyOf).Nodup

/-- Number of rows matching a (reference, source) pair. -/
def countKey (ref src : Option String) (store : List StoredRecord) : Nat :=
  store.countP (keyMatches ref src)

theorem keyMatches_iff (ref src : Option String) (r : StoredRecord) :
    keyMatches ref src r = true ↔ (r.reference = ref ∧ r.source = src) := by
  unfold keyMatches
  simp

theorem keyMatches_iff_keyOf (ref src : Option String) (r : StoredRecord) :
    keyMatches ref src r = true ↔ keyOf r = (ref, src) := by
  rw [keyMatches_iff]
  unfold keyOf
  constructor
  · rintro ⟨h1, h2⟩
    rw [h1, h2]
  · intro h
    exact ⟨congrArg Prod.fst h, congrArg Prod.snd h⟩

theorem find?_decomp {p : StoredRecord → Bool} {l : List StoredRecord} {a : StoredRecord}
    (h : l.find? p = some a) :
    ∃ l1 l2, l = l1 ++ a :: l2 ∧ (∀ r ∈ l1, p r = false) ∧ p a = true := by
  induction l with
  | nil => simp at h
  | cons x xs ih =>
    by_cases hx : p x = true
    · rw [List.find?_cons_of_pos _ hx] at h
      obtain rfl : x = a := by simpa using h
      exact ⟨[], xs, rfl, by simp, hx⟩
    · rw [List.find?_cons_of_neg _ (by simpa using hx)] at h
      obtain ⟨l1, l2, hdec, hall, ha⟩ := ih h
      exact ⟨x :: l1, l2, by rw [hdec]; rfl,
        by
          intro r hr
          rcases List.mem_cons.mp hr with rfl | hr
          · simpa using hx
          · exact hall r hr,
        ha⟩

theorem find?_prefix_cons {p : StoredRecord → Bool} (l1 : List StoredRecord)
    (x : StoredRecord) (l2 : List StoredRecord)
    (h1 : ∀ r ∈ l1, p r = false) (hx : p x = true) :
    (l1 ++ x :: l2).find? p = some x := by
  induction l1 with
  | nil => simpa using List.find?_cons_of_pos l2 hx
  | cons y ys ih =>
    have hy := h1 y (List.mem_cons_self y ys)
    rw [List.cons_append, List.find?_cons_of_neg _ (by simp [hy])]
    exact ih (fun r hr => h1 r (List.mem_cons_of_mem y hr))

theorem updateFirst_append (ref src : Option String) (cd : Option Int) (now : Int)
    (l1 l2 : List StoredRecord) (ex : StoredRecord)
    (h1 : ∀ r ∈ l1, keyMatches ref src r = false)
    (hex : keyMatches ref src ex = true) :
    updateFirst ref src cd now (l1 ++ ex :: l2) =
      l1 ++ { ex with closing_date := cd, updated_at := now } :: l2 := by
  induction l1 with
  | nil => simp [updateFirst, hex]
  | cons x xs ih =>
    have hx := h1 x (List.mem_cons_self x xs)
    rw [List.cons_append, List.cons_append]
    unfold updateFirst
    simp only [hx, Bool.false_eq_true, if_false, List.cons.injEq, true_and]
    exact ih (fun r hr => h1 r (List.mem_cons_of_mem x hr))

theorem updateFirst_map_keyOf (ref src : Option String) (cd : Option Int) (now : Int)
    (l : List StoredRecord) :
    (updateFirst ref src cd now l).map keyOf = l.map keyOf := by
  induction l with
  | nil => rfl
  | cons x xs ih =>
    unfold updateFirst
    by_cases hx : keyMatches ref src x = true
    · simp [hx, keyOf]
    · simp only [hx, if_false, Bool.false_eq_true, List.map_cons, ih]

theorem keyMatches_mkRecord (now : Int) (c : Candidate) :
    keyMatches c.reference c.source (mkRecord now c) = true := by
  simp [keyMatches, mkRecord]

/-! ### Claims about the date normalizer -/

/-- C4: every input string containing one of the placeholder tokens
"various", "multiple", "closing", "date" or "www" (case-insensitively, as
a substring) is rejected by the date normalizer, whatever the flexible
fallback parser would have done with it. -/
theorem spec_c4 (flex : List Char → Option Ymd) (s t : String)
    (ht : t ∈ blockTokens)
    (hc : containsSub t.data (s.data.map Char.toLower) = true) :
    parseKenyanDate flex s = none := by
  have h : blockedInput s = true := by
    unfold blockedInput
    have ha : blockTokens.any (fun tk => containsSub tk.data (s.data.map Char.toLower)) = true :=
      List.any_eq_true.mpr ⟨t, ht, hc⟩
    simp [ha]
  unfold parseKenyanDate
  simp [h]

/-- Witness for C4 at the concrete input "Various dates". -/
theorem spec_c4_witness :
    "various" ∈ blockTokens ∧
    containsSub "various".data ("Various dates".data.map Char.toLower) = true ∧
    parseKenyanDate (fun _ => none) "Various dates" = none :=
  ⟨by decide, by decide,
   spec_c4 (fun _ => none) "Various dates" "various" (by decide) (by decide)⟩

/-- C5: the four supported renderings "15 March 2024", "15/03/2024",
"2024-03-15" and "15.03.2024" are all accepted and resolve to the same
calendar date 2024-03-15, independently of the flexible fallback parser. -/
theorem spec_c5 (flex : List Char → Option Ymd) :
    parseKenyanDate flex "15 March 2024" = some ⟨2024, 3, 15⟩ ∧
    parseKenyanDate flex "15/03/2024" = some ⟨2024, 3, 15⟩ ∧
    parseKenyanDate flex "2024-03-15" = some ⟨2024, 3, 15⟩ ∧
    parseKenyanDate flex "15.03.2024" = some ⟨2024, 3, 15⟩ :=
  ⟨rfl, rfl, rfl, rfl⟩

/-- C6: the date normalizer is total — by construction it returns an
optional value for every input string, and it returns `none` exactly when
some stage fails: the blocklist rejects the input, or every explicit
format fails and the flexible fallback also fails.  This holds for every
possible behaviour of the flexible parser. -/
theorem spec_c6 (flex : List Char → Option Ymd) (s : String) :
    parseKenyanDate flex s = none ↔
      (blockedInput s = true ∨
       (tryFormats (stripNoise s.data) = none ∧ flex (stripNoise s.data) = none)) := by
  unfold parseKenyanDate
  by_cases hb : blockedInput s = true
  · simp [hb]
  · simp only [hb, if_neg, Bool.not_eq_true, false_or]
    cases htf : tryFormats (stripNoise s.data) with
    | none => simp [hb, htf]
    | some d => simp [hb, htf]

/-! ### Properties of the truncation model -/

theorem length_joinChunks (l : List (List Char)) : (joinChunks l).length = sumLen l := by
  unfold joinChunks sumLen
  induction l with
  | nil => rfl
  | cons c cs ih => simp [ih]

theorem sumLen_append (a b : List (List Char)) : sumLen (a ++ b) = sumLen a + sumLen b := by
  unfold sumLen
  simp

theorem sumLen_reverse (l : List (List Char)) : sumLen l.reverse = sumLen l := by
  unfold sumLen
  rw [List.map_reverse, List.sum_reverse]

theorem endsWithDots_append (x : List Char) : endsWithDots (x ++ ellipsis) = true := by
  unfold endsWithDots
  rw [decide_eq_true_iff]
  have hx : (x ++ ellipsis).length - 3 = x.length := by
    rw [List.length_append]
    rfl
  rw [hx]
  exact List.drop_left x ellipsis

theorem placeholderRev_spec (w : Nat) (l : List (List Char)) (out : List Char)
    (h : placeholderRev w l = some out) : out.length ≤ w ∧ endsWithDots out = true := by
  induction l with
  | nil => simp [placeholderRev] at h
  | cons c rest ih =>
    unfold placeholderRev at h
    by_cases hcond :
        (!isWsChunk c && decide (sumLen (c :: rest) + ellipsis.length ≤ w)) = true
    · rw [if_pos hcond] at h
      obtain rfl : joinChunks (c :: rest).reverse ++ ellipsis = out := by
        simpa using h
      have hle : sumLen (c :: rest) + ellipsis.length ≤ w := by
        have hcond2 := hcond
        simp only [Bool.and_eq_true, decide_eq_true_eq] at hcond2
        exact hcond2.2
      constructor
      · rw [List.length_append, length_joinChunks, sumLen_reverse]
        exact hle
      · exact endsWithDots_append _
    · rw [if_neg (by simpa using hcond)] at h
      exact ih h

theorem greedySplit_spec (w : Nat) (l : List (List Char)) : ∀ cur, sumLen cur ≤ w →
    ∃ pre, (greedySplit w cur l).1 = cur ++ pre ∧ l = pre ++ (greedySplit w cur l).2 ∧
      sumLen (greedySplit w cur l).1 ≤ w := by
  induction l with
  | nil =>
    intro cur h
    exact ⟨[], by simp [greedySplit], by simp [greedySplit], by simpa [greedySplit]⟩
  | cons c cs ih =>
    intro cur h
    by_cases hfit : sumLen cur + c.length ≤ w
    · have hstep : greedySplit w cur (c :: cs) = greedySplit w (cur ++ [c]) cs := by
        simp [greedySplit, hfit]
      obtain ⟨pre, h1, h2, h3⟩ := ih (cur ++ [c]) (by simpa [sumLen_append, sumLen] using hfit)
      refine ⟨c :: pre, ?_, ?_, ?_⟩
      · rw [hstep, h1]
        simp
      · rw [hstep, List.cons_append, ← h2]
      · rw [hstep]
        exact h3
    · have hstep : greedySplit w cur (c :: cs) = (cur, c :: cs) := by
        simp [greedySplit, hfit]
      exact ⟨[], by simp [hstep], by simp [hstep], by simpa [hstep] using h⟩

theorem splitWs_words (s : List Char) :
    ∀ wd ∈ splitWs s, wd ≠ [] ∧ ∀ c ∈ wd, isPySpace c = false := by
  induction s with
  | nil => simp [splitWs]
  | cons c rest ih =>
    cases rest with
    | nil =>
      intro wd hwd
      by_cases hc : isPySpace c = true
      · simp [splitWs, hc] at hwd
      · rw [Bool.not_eq_true] at hc
        simp only [splitWs, hc, Bool.false_eq_true, if_false, List.mem_singleton] at hwd
        subst hwd
        refine ⟨by simp, ?_⟩
        intro x hx
        rw [List.mem_singleton] at hx
        subst hx
        exact hc
    | cons d u =>
      intro wd hwd
      by_cases hc : isPySpace c = true
      · rw [show splitWs (c :: d :: u) = splitWs (d :: u) from by simp [splitWs, hc]] at hwd
        exact ih wd hwd
      · rw [Bool.not_eq_true] at hc
        by_cases hd : isPySpace d = true
        · rw [show splitWs (c :: d :: u) = [c] :: splitWs (d :: u) from by
            simp [splitWs, hc, hd]] at hwd
          rcases List.mem_cons.mp hwd with rfl | h2
          · refine ⟨by simp, ?_⟩
            intro x hx
            rw [List.mem_singleton] at hx
            subst hx
            exact hc
          · exact ih wd h2
        · rw [Bool.not_eq_true] at hd
          cases hr : splitWs (d :: u) with
          | nil =>
            rw [show splitWs (c :: d :: u) = [[c]] from by
              simp [splitWs, hc, hd, hr]] at hwd
            rw [List.mem_singleton] at hwd
            subst hwd
            refine ⟨by simp, ?_⟩
            intro x hx
            rw [List.mem_singleton] at hx
            subst hx
            exact hc
          | cons wh wt =>
            rw [show splitWs (c :: d :: u) = (c :: wh) :: wt from by
              simp [splitWs, hc, hd, hr]] at hwd
            rcases List.mem_cons.mp hwd with rfl | h2
            · have hwh := ih wh (by rw [hr]; exact List.mem_cons_self _ _)
              refine ⟨by simp, ?_⟩
              intro x hx
              rcases List.mem_cons.mp hx with rfl | hx2
              · exact hc
              · exact hwh.2 x hx2
            · exact ih wd (by rw [hr]; exact List.mem_cons_of_mem _ h2)

theorem chunksOfWords_cons (a : List Char) (t : List (List Char)) :
    ∃ tl, chunksOfWords (a :: t) = a :: tl := by
  cases t with
  | nil => exact ⟨[], rfl⟩
  | cons b u => exact ⟨[' '] :: chunksOfWords (b :: u), rfl⟩

theorem mem_chunksOfWords (ws : List (List Char)) (ch : List Char)
    (h : ch ∈ chunksOfWords ws) : ch = [' '] ∨ ch ∈ ws := by
  induction ws with
  | nil => simp [chunksOfWords] at h
  | cons a t ih =>
    cases t with
    | nil =>
      simp only [chunksOfWords, List.mem_singleton] at h
      exact Or.inr (by rw [h]; exact List.mem_singleton_self a)
    | cons b u =>
      have hh : ch ∈ a :: [' '] :: chunksOfWords (b :: u) := h
      rcases List.mem_cons.mp hh with rfl | h2
      · exact Or.inr (List.mem_cons_self _ _)
      · rcases List.mem_cons.mp h2 with rfl | h3
        · exact Or.inl rfl
        · rcases ih h3 with hsp | hmem
          · exact Or.inl hsp
          · exact Or.inr (List.mem_cons_of_mem _ hmem)

theorem chunksOfWords_getLast (ws : List (List Char)) (h : ws ≠ []) :
    ∃ lw, (chunksOfWords ws).getLast? = some lw ∧ lw ∈ ws := by
  induction ws with
  | nil => cases h rfl
  | cons a t ih =>
    cases t with
    | nil => exact ⟨a, rfl, List.mem_singleton_self a⟩
    | cons b u =>
      obtain ⟨lw, hlast, hmem⟩ := ih (by simp)
      refine ⟨lw, ?_, List.mem_cons_of_mem a hmem⟩
      show (a :: [' '] :: chunksOfWords (b :: u)).getLast? = some lw
      rw [List.getLast?_cons_cons]
      obtain ⟨tl, htl⟩ := chunksOfWords_cons b u
      rw [htl] at hlast ⊢
      rw [List.getLast?_cons_cons]
      exact hlast

theorem isWsChunk_false_of_word (l : List Char) (hne : l ≠ [])
    (hw : ∀ c ∈ l, isPySpace c = false) : isWsChunk l = false := by
  cases l with
  | nil => cases hne rfl
  | cons c cs =>
    have hc := hw c (List.mem_cons_self _ _)
    have hcs : (c == ' ') = false := by
      unfold isPySpace at hc
      rcases Bool.or_eq_false_iff.mp hc with ⟨h1, _⟩
      rcases Bool.or_eq_false_iff.mp h1 with ⟨h2, _⟩
      rcases Bool.or_eq_false_iff.mp h2 with ⟨h3, _⟩
      rcases Bool.or_eq_false_iff.mp h3 with ⟨h4, _⟩
      rcases Bool.or_eq_false_iff.mp h4 with ⟨h5, _⟩
      exact h5
    unfold isWsChunk
    simp [hcs]

theorem dropTrailingWs_ne_nil (x : List Char) (xs : List (List Char))
    (hx : isWsChunk x = false) : dropTrailingWs (x :: xs) ≠ [] := by
  unfold dropTrailingWs
  cases xs with
  | nil =>
    simp only [List.getLast?_singleton, hx, Bool.false_eq_true, if_false]
    simp
  | cons y ys =>
    cases hxs : (x :: y :: ys).getLast? with
    | none => simp at hxs
    | some lc =>
      by_cases hlc : isWsChunk lc = true
      · simp only [hlc, if_true]
        simp [List.dropLast_cons₂]
      · simp only [hlc, Bool.false_eq_true, if_false]  -- hmm hlc is not eq false yet
        simp
  -- fallback

theorem greedySplit_nil_cases (w : Nat) (a : List Char) (t : List (List Char)) :
    (greedySplit w [] (a :: t)).1 ≠ [] ∨
    (greedySplit w [] (a :: t) = ([], a :: t) ∧ w < a.length) := by
  by_cases hfit : sumLen ([] : List (List Char)) + a.length ≤ w
  · left
    have hstep : greedySplit w [] (a :: t) = greedySplit w ([] ++ [a]) t := by
      simp [greedySplit, hfit]
    obtain ⟨pre, h1, _, _⟩ := greedySplit_spec w t ([] ++ [a]) (by
      simpa [sumLen] using hfit)
    rw [hstep, h1]
    simp
  · right
    refine ⟨by simp [greedySplit, hfit], ?_⟩
    simp [sumLen] at hfit
    omega

/-- When the chunks overflow the line (the placeholder branch is taken),
the wrapped result fits in the width and carries the marker. -/
theorem wrapChunksOne_else (w : Nat) (hw : 3 ≤ w) (chunks : List (List Char))
    (hne : chunks ≠ [])
    (hcurne : dropTrailingWs (handleLongWord w (greedySplit w [] chunks).1
        (greedySplit w [] chunks).2).1 ≠ [])
    (hcond : ((handleLongWord w (greedySplit w [] chunks).1
          (greedySplit w [] chunks).2).2.isEmpty
        || ((handleLongWord w (greedySplit w [] chunks).1
              (greedySplit w [] chunks).2).2.length == 1
            && isWsChunk ((handleLongWord w (greedySplit w [] chunks).1
                (greedySplit w [] chunks).2).2.headD []))) = false) :
    (wrapChunksOne w chunks).length ≤ w ∧ endsWithDots (wrapChunksOne w chunks) = true := by
  cases chunks with
  | nil => cases hne rfl
  | cons a t =>
    have hred : wrapChunksOne w (a :: t) =
        match dropTrailingWs (handleLongWord w (greedySplit w [] (a :: t)).1
            (greedySplit w [] (a :: t)).2).1 with
        | [] => []
        | _ :: _ =>
          if ((handleLongWord w (greedySplit w [] (a :: t)).1
                (greedySplit w [] (a :: t)).2).2.isEmpty
              || ((handleLongWord w (greedySplit w [] (a :: t)).1
                    (greedySplit w [] (a :: t)).2).2.length == 1
                  && isWsChunk ((handleLongWord w (greedySplit w [] (a :: t)).1
                      (greedySplit w [] (a :: t)).2).2.headD [])))
              && decide (sumLen (dropTrailingWs (handleLongWord w
                  (greedySplit w [] (a :: t)).1 (greedySplit w [] (a :: t)).2).1) ≤ w) then
            joinChunks (dropTrailingWs (handleLongWord w (greedySplit w [] (a :: t)).1
                (greedySplit w [] (a :: t)).2).1)
          else
            match placeholderRev w (dropTrailingWs (handleLongWord w
                (greedySplit w [] (a :: t)).1 (greedySplit w [] (a :: t)).2).1).reverse with
            | some out => out
            | none => ellipsis := rfl
    rw [hred]
    cases hcur : dropTrailingWs (handleLongWord w (greedySplit w [] (a :: t)).1
        (greedySplit w [] (a :: t)).2).1 with
    | nil => exact absurd hcur hcurne
    | cons q qs =>
      simp only [hcond, Bool.false_and, Bool.false_eq_true, if_false]
      cases hpr : placeholderRev w ((q :: qs).reverse) with
      | some out => exact placeholderRev_spec w _ out hpr
      | none =>
        constructor
        · show ellipsis.length ≤ w
          simpa [ellipsis] using hw
        · decide

/-- Core truncation property: when the whitespace-collapsed text is wider
than the line, `shorten` produces a string of at most `w` characters that
ends in the `"..."` marker. -/
theorem shorten_spec (w : Nat) (hw : 3 ≤ w) (text : List Char)
    (h : w < (collapseWs text).length) :
    (shortenList w text).length ≤ w ∧ endsWithDots (shortenList w text) = true := by
  have hsum0 : w < sumLen (chunksOfWords (splitWs text)) := by
    rw [← length_joinChunks]
    exact h
  have hword := splitWs_words text
  have hsplitne : splitWs text ≠ [] := by
    intro hnil
    rw [hnil] at hsum0
    simp [chunksOfWords, sumLen] at hsum0
  obtain ⟨w0, wT, hsplit⟩ : ∃ a t, splitWs text = a :: t := by
    cases hs : splitWs text with
    | nil => exact absurd hs hsplitne
    | cons a t => exact ⟨a, t, rfl⟩
  obtain ⟨tl, htl⟩ := chunksOfWords_cons w0 wT
  have hchunks : chunksOfWords (splitWs text) = w0 :: tl := by rw [hsplit, htl]
  have hsum : w < sumLen (w0 :: tl) := by rw [← hchunks]; exact hsum0
  have hw0word : w0 ≠ [] ∧ ∀ c ∈ w0, isPySpace c = false :=
    hword w0 (by rw [hsplit]; exact List.mem_cons_self _ _)
  obtain ⟨lw, hlast0, hlwmem⟩ := chunksOfWords_getLast (splitWs text) hsplitne
  have hlword := hword lw hlwmem
  have hlast : (w0 :: tl).getLast? = some lw := by rw [← hchunks]; exact hlast0
  have hchunkfact : ∀ ch ∈ (w0 :: tl),
      ch = [' '] ∨ (ch ≠ [] ∧ ∀ c ∈ ch, isPySpace c = false) := by
    intro ch hch
    rcases mem_chunksOfWords (splitWs text) ch (by rw [hchunks]; exact hch) with hsp | hmem
    · exact Or.inl hsp
    · exact Or.inr (hword ch hmem)
  have hsl : shortenList w text = wrapChunksOne w (w0 :: tl) := by
    rw [shortenList, hchunks]
  rcases hG : greedySplit w [] (w0 :: tl) with ⟨cur0, rest0⟩
  obtain ⟨pre, hg1, hg2, hg3⟩ := greedySplit_spec w (w0 :: tl) [] (by simp [sumLen])
  rw [hG] at hg1 hg2 hg3
  simp only [List.nil_append] at hg1 hg2 hg3
  subst hg1
  have hrest0ne : rest0 ≠ [] := by
    intro hnil
    rw [hnil, List.append_nil] at hg2
    rw [← hg2] at hg3
    omega
  obtain ⟨c, cs, rfl⟩ : ∃ c cs, rest0 = c :: cs := by
    cases rest0 with
    | nil => exact absurd rfl hrest0ne
    | cons c cs => exact ⟨c, cs, rfl⟩
  have hcmem : c ∈ (w0 :: tl) := by
    rw [hg2]
    exact List.mem_append_right cur0 (List.mem_cons_self _ _)
  have hhead : ∀ p ps, cur0 = p :: ps → w0 = p := by
    intro p ps hc0
    have hg2h := hg2
    rw [hc0, List.cons_append] at hg2h
    exact (List.cons.inj hg2h).1
  rw [hsl]
  by_cases hbig : w < c.length
  · -- the long-word split path
    have hhl : handleLongWord w cur0 (c :: cs) =
        (cur0 ++ [c.take (w - sumLen cur0)], c.drop (w - sumLen cur0) :: cs) := by
      simp [handleLongWord, hbig]
    have hcword : c ≠ [] ∧ ∀ x ∈ c, isPySpace x = false := by
      rcases hchunkfact c hcmem with hsp | hwrd
      · rw [hsp] at hbig
        simp at hbig
        omega
      · exact hwrd
    have hdropne : c.drop (w - sumLen cur0) ≠ [] := by
      rw [ne_eq, List.drop_eq_nil_iff]
      push_neg
      omega
    have hdropws : isWsChunk (c.drop (w - sumLen cur0)) = false :=
      isWsChunk_false_of_word _ hdropne
        (fun x hx => hcword.2 x (List.drop_subset _ c hx))
    have hcurne : dropTrailingWs (cur0 ++ [c.take (w - sumLen cur0)]) ≠ [] := by
      cases hcc : cur0 with
      | nil =>
        simp only [List.nil_append]
        apply dropTrailingWs_ne_nil
        apply isWsChunk_false_of_word
        · rw [ne_eq, List.take_eq_nil_iff]
          push_neg
          constructor
          · simp only [sumLen, List.map_nil, List.sum_nil, Nat.sub_zero]
            omega
          · exact hcword.1
        · exact fun x hx => hcword.2 x (List.take_subset _ c hx)
      | cons p ps =>
        have hpw : w0 = p := hhead p ps hcc
        rw [List.cons_append]
        exact dropTrailingWs_ne_nil p _
          (by rw [← hpw]; exact isWsChunk_false_of_word w0 hw0word.1 hw0word.2)
    have hcondA : ((c.drop (w - sumLen cur0) :: cs).isEmpty
        || ((c.drop (w - sumLen cur0) :: cs).length == 1
            && isWsChunk ((c.drop (w - sumLen cur0) :: cs).headD []))) = false := by
      simp [hdropws]
    apply wrapChunksOne_else w hw (w0 :: tl) (by simp)
    · rw [hG]
      show dropTrailingWs (handleLongWord w cur0 (c :: cs)).1 ≠ []
      rw [hhl]
      exact hcurne
    · rw [hG]
      show ((handleLongWord w cur0 (c :: cs)).2.isEmpty
          || ((handleLongWord w cur0 (c :: cs)).2.length == 1
              && isWsChunk ((handleLongWord w cur0 (c :: cs)).2.headD []))) = false
      rw [hhl]
      exact hcondA
  · -- the whole-chunk path
    have hhl : handleLongWord w cur0 (c :: cs) = (cur0, c :: cs) := by
      simp [handleLongWord, hbig]
    have hcur0ne : cur0 ≠ [] := by
      rcases greedySplit_nil_cases w w0 tl with hfst | ⟨heq, hlen⟩
      · rw [hG] at hfst
        intro hnil
        exact hfst (by simp [hnil])
      · rw [hG] at heq
        have hr0 : c :: cs = w0 :: tl := congrArg Prod.snd heq
        have hcw0 : c = w0 := (List.cons.inj hr0).1
        exact absurd (hcw0 ▸ hlen) hbig
    obtain ⟨p, ps, hc0⟩ : ∃ p ps, cur0 = p :: ps := by
      cases hcc : cur0 with
      | nil => exact absurd hcc hcur0ne
      | cons p ps => exact ⟨p, ps, rfl⟩
    have hcurne : dropTrailingWs cur0 ≠ [] := by
      rw [hc0]
      exact dropTrailingWs_ne_nil p _
        (by rw [← hhead p ps hc0]; exact isWsChunk_false_of_word w0 hw0word.1 hw0word.2)
    have hcondB : ((c :: cs).isEmpty
        || ((c :: cs).length == 1 && isWsChunk ((c :: cs).headD []))) = false := by
      cases cs with
      | nil =>
        have hlastc : (w0 :: tl).getLast? = some c := by
          rw [hg2]
          exact List.getLast?_concat cur0
        have hc_lw : c = lw := by
          rw [hlastc] at hlast
          exact Option.some.inj hlast
        have hcws : isWsChunk c = false := by
          rw [hc_lw]
          exact isWsChunk_false_of_word lw hlword.1 hlword.2
        simp [hcws]
      | cons c2 cs2 =>
        simp
    apply wrapChunksOne_else w hw (w0 :: tl) (by simp)
    · rw [hG]
      show dropTrailingWs (handleLongWord w cur0 (c :: cs)).1 ≠ []
      rw [hhl]
      exact hcurne
    · rw [hG]
      show ((handleLongWord w cur0 (c :: cs)).2.isEmpty
          || ((handleLongWord w cur0 (c :: cs)).2.length == 1
              && isWsChunk ((handleLongWord w cur0 (c :: cs)).2.headD []))) = false
      rw [hhl]
      exact hcondB

/-! ### Claims about the record formatter -/

/-- The formatter marks every record it touches as available offline. -/
theorem offline_available_format (now : Int) (t : MobileTender) :
    (formatTenderForMobile now t).offline_available = some true := rfl

/-- C2 counterexample: on a candidate with no closing date the formatter
leaves the status field untouched (here: unset), rather than setting it
to "unknown" as the claim requires. -/
theorem spec_c2_cex :
    ({} : MobileTender).closing_date = DateField.absent ∧
    (formatTenderForMobile 0 ({} : MobileTender)).status = none ∧
    (formatTenderForMobile 0 ({} : MobileTender)).status ≠ some "unknown" := by
  refine ⟨rfl, rfl, by decide⟩

/-- C2 (amended): for a parseable closing date the derived status follows
the ladder — "closed" when daysRemaining < 0, "closing_soon" when
0 ≤ daysRemaining ≤ 7, "open" otherwise — and the concrete examples
now+2 days ↦ ("closing_soon", 2) and now−1 day ↦ ("closed", −1) hold; but
when the closing date is absent or unparsable the formatter leaves both
the status and daysRemaining fields unchanged instead of setting the
status to "unknown" (the source's "unknown" branch is unreachable). -/
theorem spec_c2 (now : Int) (t : MobileTender) :
    (∀ c, t.closing_date = DateField.parsed c →
      (formatTenderForMobile now t).days_remaining = some (daysBetween now c) ∧
      (formatTenderForMobile now t).status =
        some (if daysBetween now c < 0 then "closed"
              else if daysBetween now c ≤ 7 then "closing_soon" else "open")) ∧
    (t.closing_date = DateField.absent ∨ t.closing_date = DateField.unparsable →
      (formatTenderForMobile now t).status = t.status ∧
      (formatTenderForMobile now t).days_remaining = t.days_remaining) ∧
    (t.closing_date = DateField.parsed (now + 2 * 86400) →
      (formatTenderForMobile now t).status = some "closing_soon" ∧
      (formatTenderForMobile now t).days_remaining = some 2) ∧
    (t.closing_date = DateField.parsed (now - 86400) →
      (formatTenderForMobile now t).status = some "closed" ∧
      (formatTenderForMobile now t).days_remaining = some (-1)) := by
  have hday2 : daysBetween now (now + 172800) = 2 := by
    unfold daysBetween
    have h : now + 172800 - now = 172800 := by ring
    rw [h]; decide
  have hdayneg : daysBetween now (now - 86400) = -1 := by
    unfold daysBetween
    have h : now - 86400 - now = -86400 := by ring
    rw [h]; decide
  refine ⟨?_, ?_, ?_, ?_⟩
  · intro c hc
    unfold formatTenderForMobile normalizeDateField statusFor
    rw [hc]
    exact ⟨rfl, rfl⟩
  · intro hc
    unfold formatTenderForMobile normalizeDateField
    rcases hc with hc | hc <;> rw [hc] <;> exact ⟨rfl, rfl⟩
  · intro hc
    unfold formatTenderForMobile normalizeDateField statusFor
    rw [hc]
    refine ⟨?_, ?_⟩ <;> simp [hday2]
  · intro hc
    unfold formatTenderForMobile normalizeDateField statusFor
    rw [hc]
    refine ⟨?_, ?_⟩ <;> simp [hdayneg]

/-- Witness for C2 at now = 0 with a closing date two days ahead. -/
theorem spec_c2_witness :
    (formatTenderForMobile 0 { closing_date := DateField.parsed 172800 }).status =
      some "closing_soon" ∧
    (formatTenderForMobile 0 { closing_date := DateField.parsed 172800 }).days_remaining =
      some 2 :=
  (spec_c2 0 { closing_date := DateField.parsed 172800 }).2.2.1 (by norm_num)

theorem find?_eq_none_all {p : StoredRecord → Bool} {l : List StoredRecord}
    (h : l.find? p = none) : ∀ r ∈ l, p r = false := by
  intro r hr
  have := List.find?_eq_none.mp h r hr
  simpa using this

/-- Python comparison facts: a stored (naive) value never equals an
incoming timezone-aware one, and equals an incoming naive one exactly on
equal readings. -/
theorem pyNeStored_aware (o : Option Int) (t : Int) :
    pyNeStored o (some (.aware t)) = true := by
  cases o <;> rfl

theorem pyNeStored_naive_self (t : Int) :
    pyNeStored (some t) (some (.naive t)) = false := by
  simp [pyNeStored]

/-- A second upsert of the same candidate is a no-op, provided its
closing date is null or parsed timezone-naive (a timezone-aware date
re-takes the update branch every time, see `spec_c3_cex`). -/
theorem saveToDb_idem (now1 now2 : Int) (store : List StoredRecord) (c : Candidate)
    (hok : c.closing_date = none ∨ ∃ t, c.closing_date = some (.naive t)) :
    saveToDb now2 (saveToDb now1 store c) c = saveToDb now1 store c := by
  cases hfind : store.find? (keyMatches c.reference c.source) with
  | none =>
    have hall := find?_eq_none_all hfind
    by_cases hblk : (c.reference.isSome &&
        store.any (fun r => r.reference == c.reference)) = true
    · have hsave : saveToDb now1 store c = store := by
        unfold saveToDb
        rw [hfind]
        simp [hblk]
      rw [hsave]
      unfold saveToDb
      rw [hfind]
      simp [hblk]
    · have hsave : saveToDb now1 store c = store ++ [mkRecord now1 c] := by
        unfold saveToDb
        rw [hfind]
        simp only [Bool.not_eq_true] at hblk
        simp [hblk]
      have hfind2 : (store ++ [mkRecord now1 c]).find? (keyMatches c.reference c.source) =
          some (mkRecord now1 c) :=
        find?_prefix_cons store _ [] hall (keyMatches_mkRecord now1 c)
      have hcnd : (c.closing_date.isSome &&
          pyNeStored (mkRecord now1 c).closing_date c.closing_date) = false := by
        rcases hok with h | ⟨t, h⟩ <;> simp [h, mkRecord, pyNeStored, dbNaive]
      rw [hsave]
      unfold saveToDb
      rw [hfind2]
      simp [hcnd]
  | some ex =>
    by_cases hcond : (c.closing_date.isSome && pyNeStored ex.closing_date c.closing_date) = true
    · obtain ⟨l1, l2, hdecomp, hl1, hex⟩ := find?_decomp hfind
      have hsome : c.closing_date.isSome = true := by
        cases hs : c.closing_date.isSome
        · rw [hs] at hcond
          simp at hcond
        · rfl
      obtain ⟨t, hclo⟩ : ∃ t, c.closing_date = some (.naive t) := by
        rcases hok with h | h
        · rw [h] at hsome
          simp at hsome
        · exact h
      have hsave : saveToDb now1 store c =
          l1 ++ { ex with closing_date := c.closing_date.map dbNaive, updated_at := now1 } :: l2 := by
        unfold saveToDb
        rw [hfind]
        simp only [hcond, if_true]
        rw [hdecomp]
        exact updateFirst_append _ _ _ _ l1 l2 ex hl1 hex
      have hex1 : keyMatches c.reference c.source
          { ex with closing_date := c.closing_date.map dbNaive, updated_at := now1 } = true :=
        hex
      have hfind2 : (l1 ++ { ex with closing_date := c.closing_date.map dbNaive, updated_at := now1 } :: l2).find?
            (keyMatches c.reference c.source) =
          some { ex with closing_date := c.closing_date.map dbNaive, updated_at := now1 } :=
        find?_prefix_cons l1 _ l2 hl1 hex1
      have hcnd : (c.closing_date.isSome &&
          pyNeStored (c.closing_date.map dbNaive) c.closing_date) = false := by
        simp [hclo, pyNeStored, dbNaive]
      rw [hsave]
      unfold saveToDb
      rw [hfind2]
      simp only []
      simp [hcnd]
    · have hsave : saveToDb now1 store c = store := by
        unfold saveToDb
        rw [hfind]
        simp only [Bool.not_eq_true] at hcond
        simp [hcond]
      rw [hsave]
      unfold saveToDb
      rw [hfind]
      simp only [Bool.not_eq_true] at hcond
      simp [hcond]

/-- Upserting preserves uniqueness of the (reference, source) keys. -/
theorem saveToDb_uniqueKeys (now : Int) (store : List StoredRecord) (c : Candidate)
    (h : uniqueKeys store) : uniqueKeys (saveToDb now store c) := by
  unfold saveToDb
  cases hfind : store.find? (keyMatches c.reference c.source) with
  | none =>
    have hall := find?_eq_none_all hfind
    by_cases hblk : (c.reference.isSome &&
        store.any (fun r => r.reference == c.reference)) = true
    · simp only [hblk, if_true]
      exact h
    · simp only [Bool.not_eq_true] at hblk
      simp only [hblk, Bool.false_eq_true, if_false]
      unfold uniqueKeys at *
      rw [List.map_append]
      rw [List.nodup_append]
      refine ⟨h, List.nodup_singleton _, ?_⟩
      intro k hk1 hk2
      simp only [List.map_cons, List.map_nil, List.mem_singleton] at hk2
      obtain ⟨r, hr, hkr⟩ := List.mem_map.mp hk1
      have : keyMatches c.reference c.source r = true := by
        rw [keyMatches_iff_keyOf]
        rw [hkr, hk2]
        simp [keyOf, mkRecord]
      rw [hall r hr] at this
      exact Bool.false_ne_true this
  | some ex =>
    by_cases hcond : (c.closing_date.isSome && pyNeStored ex.closing_date c.closing_date) = true
    · simp only [hcond, if_true]
      unfold uniqueKeys at *
      rw [updateFirst_map_keyOf]
      exact h
    · simp only [Bool.not_eq_true] at hcond
      simp only [hcond, Bool.false_eq_true, if_false]
      exact h

/-- In a key-unique store decomposed around a matching row, the key is
matched exactly once. -/
theorem countP_key_of_unique (ref src : Option String) (l1 l2 : List StoredRecord)
    (ex : StoredRecord) (h : uniqueKeys (l1 ++ ex :: l2))
    (hex : keyMatches ref src ex = true) :
    l1.countP (keyMatches ref src) = 0 ∧ l2.countP (keyMatches ref src) = 0 := by
  have hkey : keyOf ex = (ref, src) := (keyMatches_iff_keyOf ref src ex).mp hex
  unfold uniqueKeys at h
  rw [List.map_append, List.map_cons] at h
  rw [List.nodup_append] at h
  obtain ⟨h1, h2, hdisj⟩ := h
  have hnotin1 : keyOf ex ∉ l1.map keyOf := fun hmem =>
    hdisj hmem (List.mem_cons_self _ _)
  have hnotin2 : keyOf ex ∉ l2.map keyOf := (List.nodup_cons.mp h2).1
  constructor
  · rw [List.countP_eq_zero]
    intro r hr hkr
    exact hnotin1 (by
      rw [hkey, ← (keyMatches_iff_keyOf ref src r).mp hkr]
      exact List.mem_map_of_mem keyOf hr)
  · rw [List.countP_eq_zero]
    intro r hr hkr
    exact hnotin2 (by
      rw [hkey, ← (keyMatches_iff_keyOf ref src r).mp hkr]
      exact List.mem_map_of_mem keyOf hr)

/-- Updating the first key match changes no row's key, hence no count. -/
theorem countP_updateFirst (ref src ref' src' : Option String) (cd : Option Int) (now : Int)
    (l : List StoredRecord) :
    (updateFirst ref src cd now l).countP (keyMatches ref' src') =
      l.countP (keyMatches ref' src') := by
  induction l with
  | nil => rfl
  | cons x xs ih =>
    unfold updateFirst
    by_cases hx : keyMatches ref src x = true
    · simp only [hx, if_true, List.countP_cons]
      rfl
    · simp only [hx, Bool.false_eq_true, if_false, List.countP_cons, ih]

/-- A single upsert into a key-unique store whose rows do not collide
with the candidate's reference under a different source leaves exactly
one row for the candidate's key. -/
theorem countKey_saveToDb (now : Int) (store : List StoredRecord) (c : Candidate)
    (h : uniqueKeys store)
    (hnoc : ∀ r ∈ store, r.reference = c.reference → r.source = c.source) :
    countKey c.reference c.source (saveToDb now store c) = 1 := by
  unfold saveToDb countKey
  cases hfind : store.find? (keyMatches c.reference c.source) with
  | none =>
    have hall := find?_eq_none_all hfind
    have hblk : (c.reference.isSome &&
        store.any (fun r => r.reference == c.reference)) = false := by
      by_cases hrs : c.reference.isSome = true
      · simp only [hrs, Bool.true_and]
        rw [← Bool.not_eq_true, List.any_eq_true]
        rintro ⟨r, hr, hbeq⟩
        have hre : r.reference = c.reference := by simpa using hbeq
        have hkm : keyMatches c.reference c.source r = true := by
          simp [keyMatches, hre, hnoc r hr hre]
        rw [hall r hr] at hkm
        exact Bool.false_ne_true hkm
      · simp only [Bool.not_eq_true] at hrs
        simp [hrs]
    simp only [hblk, Bool.false_eq_true, if_false]
    rw [List.countP_append]
    have h0 : store.countP (keyMatches c.reference c.source) = 0 :=
      List.countP_eq_zero.mpr (fun r hr => by simp [hall r hr])
    rw [h0]
    simp [List.countP_cons, keyMatches_mkRecord]
  | some ex =>
    obtain ⟨l1, l2, hdecomp, hl1, hex⟩ := find?_decomp hfind
    obtain ⟨c1, c2⟩ := countP_key_of_unique _ _ l1 l2 ex (by rw [← hdecomp]; exact h) hex
    by_cases hcond : (c.closing_date.isSome && pyNeStored ex.closing_date c.closing_date) = true
    · simp only [hcond, if_true]
      rw [hdecomp, updateFirst_append _ _ _ _ l1 l2 ex hl1 hex]
      rw [List.countP_append, List.countP_cons]
      have hex1 : keyMatches c.reference c.source
          { ex with closing_date := c.closing_date.map dbNaive, updated_at := now } = true :=
        hex
      rw [c1]
      simp [hex1, c2]
    · simp only [Bool.not_eq_true] at hcond
      simp only [hcond, Bool.false_eq_true, if_false]
      rw [hdecomp, List.countP_append, List.countP_cons]
      rw [c1]
      simp [hex, c2]

/-- A further upsert of a candidate whose key is already present never
changes how many rows carry that key. -/
theorem countKey_saveToDb_again (now : Int) (store : List StoredRecord) (c : Candidate)
    (ex : StoredRecord)
    (hfind : store.find? (keyMatches c.reference c.source) = some ex) :
    countKey c.reference c.source (saveToDb now store c) =
      countKey c.reference c.source store := by
  unfold saveToDb countKey
  rw [hfind]
  by_cases hcond : (c.closing_date.isSome && pyNeStored ex.closing_date c.closing_date) = true
  · simp only [hcond, if_true]
    exact countP_updateFirst _ _ _ _ _ _ _
  · simp only [Bool.not_eq_true] at hcond
    simp [hcond]

set_option maxRecDepth 4096 in
/-- C7 counterexample: a title of 101 characters ("a", 99 spaces, "b") is
longer than 100 characters, yet the formatted view's title is the
whitespace-collapsed "a b" with no trailing ellipsis marker — the
whitespace collapse of `textwrap.shorten` runs before the length check,
so the claim's premise (raw length over 100) does not force truncation. -/
theorem spec_c7_cex :
    (String.mk ('a' :: (List.replicate 99 ' ' ++ ['b']))).length = 101 ∧
    (formatTenderForMobile 0
        { title := some (String.mk ('a' :: (List.replicate 99 ' ' ++ ['b']))) }).title =
      some "a b" ∧
    endsWithDots "a b".data = false :=
  ⟨by decide, by decide, by decide⟩

/-- C7 (amended): whenever the whitespace-collapsed title exceeds 100
characters, the view's title is the shortened text, which is at most 100
characters long and ends with the "..." marker; likewise a description
whose collapsed form exceeds 200 characters.  A raw length over the cap
does not suffice: the collapse (which removes runs of whitespace) must
leave the text over the cap, otherwise it is returned unmarked. -/
theorem spec_c7 (now : Int) (t : MobileTender) :
    (∀ s, t.title = some s → 100 < (collapseWs s.data).length →
      (formatTenderForMobile now t).title = some (pyShorten 100 s) ∧
      (pyShorten 100 s).length ≤ 100 ∧ endsWithDots (pyShorten 100 s).data = true) ∧
    (∀ s, t.description = some s → 200 < (collapseWs s.data).length →
      (formatTenderForMobile now t).description = some (pyShorten 200 s) ∧
      (pyShorten 200 s).length ≤ 200 ∧ endsWithDots (pyShorten 200 s).data = true) := by
  constructor
  · intro s hs hlen
    have hne : s.data.isEmpty = false := by
      cases hd : s.data with
      | nil =>
        rw [hd] at hlen
        simp [collapseWs, splitWs, chunksOfWords, joinChunks] at hlen
      | cons a l => rfl
    refine ⟨?_, ?_, ?_⟩
    · unfold formatTenderForMobile
      rw [hs]
      simp [hne]
    · exact (shorten_spec 100 (by omega) s.data hlen).1
    · exact (shorten_spec 100 (by omega) s.data hlen).2
  · intro s hs hlen
    have hne : s.data.isEmpty = false := by
      cases hd : s.data with
      | nil =>
        rw [hd] at hlen
        simp [collapseWs, splitWs, chunksOfWords, joinChunks] at hlen
      | cons a l => rfl
    refine ⟨?_, ?_, ?_⟩
    · unfold formatTenderForMobile
      rw [hs]
      simp [hne]
    · exact (shorten_spec 200 (by omega) s.data hlen).1
    · exact (shorten_spec 200 (by omega) s.data hlen).2

set_option maxRecDepth 4096 in
/-- Witness for C7 at a title of 101 letters. -/
theorem spec_c7_witness :
    (formatTenderForMobile 0
        { title := some (String.mk (List.replicate 101 'a')) }).title =
      some (pyShorten 100 (String.mk (List.replicate 101 'a'))) ∧
    (pyShorten 100 (String.mk (List.replicate 101 'a'))).length ≤ 100 ∧
    endsWithDots (pyShorten 100 (String.mk (List.replicate 101 'a'))).data = true :=
  (spec_c7 0 { title := some (String.mk (List.replicate 101 'a')) }).1
    (String.mk (List.replicate 101 'a')) rfl (by decide)

/-! ### Claims about the persistence store -/
/-- C1 counterexample: a stored record has closingDate = some 100, the
incoming candidate for the same key has closingDate = None — a
null-vs-non-null difference that the claim says must update the stored
closingDate and updatedAt — yet the upsert leaves the store (including
updatedAt = 0, not the call time 5) completely unchanged, because the
source guards the update with the truthiness of the incoming date. -/
theorem spec_c1_cex :
    ({ reference := some "R1", source := some "mygov", title := some "different title",
       closing_date := none } : Candidate).closing_date = none ∧
    pyNeStored
      ({ reference := some "R1", source := some "mygov", title := some "original title",
         closing_date := some 100, updated_at := 0 } : StoredRecord).closing_date
      ({ reference := some "R1", source := some "mygov", title := some "different title",
         closing_date := none } : Candidate).closing_date = true ∧
    keyMatches (some "R1") (some "mygov")
      { reference := some "R1", source := some "mygov", title := some "original title",
        closing_date := some 100, updated_at := 0 } = true ∧
    saveToDb 5
      [{ reference := some "R1", source := some "mygov", title := some "original title",
         closing_date := some 100, updated_at := 0 }]
      { reference := some "R1", source := some "mygov", title := some "different title",
        closing_date := none } =
      [{ reference := some "R1", source := some "mygov", title := some "original title",
         closing_date := some 100, updated_at := 0 }] :=
  ⟨by decide, by decide, by decide, by decide⟩

/-- C1 (amended): when the matched stored record exists, the upsert
updates the stored closingDate and updatedAt exactly when the incoming
closingDate is non-null and differs — under Python datetime equality,
where a stored null against an incoming non-null counts as different, as
does any stored naive value against an incoming timezone-aware one —
from the stored value; when the incoming closingDate is null, or equal
to the stored one, the store is left completely untouched.  In the
update case the matched row receives the incoming date's naive wall
clock (the column drops tzinfo) and the new updatedAt, every other field
of that row keeps its stored first-insert value, and all other rows are
unchanged. -/
theorem spec_c1 (now : Int) (store : List StoredRecord) (c : Candidate) (ex : StoredRecord)
    (hfind : store.find? (keyMatches c.reference c.source) = some ex) :
    (c.closing_date.isSome = true → pyNeStored ex.closing_date c.closing_date = true →
      ∃ l1 l2, store = l1 ++ ex :: l2 ∧
        (∀ r ∈ l1, keyMatches c.reference c.source r = false) ∧
        saveToDb now store c =
          l1 ++ { ex with closing_date := c.closing_date.map dbNaive, updated_at := now } :: l2) ∧
    ((c.closing_date = none ∨ pyNeStored ex.closing_date c.closing_date = false) →
      saveToDb now store c = store) := by
  constructor
  · intro hsome hne
    obtain ⟨l1, l2, hdecomp, hl1, hex⟩ := find?_decomp hfind
    refine ⟨l1, l2, hdecomp, hl1, ?_⟩
    have hcond : (c.closing_date.isSome && pyNeStored ex.closing_date c.closing_date) = true := by
      simp [hsome, hne]
    unfold saveToDb
    rw [hfind]
    simp only [hcond, if_true]
    rw [hdecomp]
    exact updateFirst_append _ _ _ _ l1 l2 ex hl1 hex
  · intro hor
    have hcond : (c.closing_date.isSome && pyNeStored ex.closing_date c.closing_date) = false := by
      rcases hor with h | h
      · simp [h]
      · simp [h]
    unfold saveToDb
    rw [hfind]
    simp [hcond]

/-- Witness for C1: both branches at concrete stores — an update with a
changed (timezone-aware, as in the pipeline) date rewrites only the
naive closingDate and updatedAt, and an equal naive date leaves the
store untouched. -/
theorem spec_c1_witness :
    (∃ l1 l2,
      ([{ reference := some "R2", source := some "ppip", closing_date := some 100,
          updated_at := 0 }] : List StoredRecord) =
        l1 ++ ({ reference := some "R2", source := some "ppip", closing_date := some 100,
                 updated_at := 0 } : StoredRecord) :: l2 ∧
      (∀ r ∈ l1, keyMatches (some "R2") (some "ppip") r = false) ∧
      saveToDb 7
        [{ reference := some "R2", source := some "ppip", closing_date := some 100,
           updated_at := 0 }]
        { reference := some "R2", source := some "ppip",
          closing_date := some (.aware 200) } =
        l1 ++ { ({ reference := some "R2", source := some "ppip", closing_date := some 100,
                   updated_at := 0 } : StoredRecord) with
                closing_date := some 200, updated_at := 7 } :: l2) ∧
    saveToDb 7
      [{ reference := some "R2", source := some "ppip", closing_date := some 100,
         updated_at := 0 }]
      { reference := some "R2", source := some "ppip",
        closing_date := some (.naive 100) } =
      [{ reference := some "R2", source := some "ppip", closing_date := some 100,
         updated_at := 0 }] :=
  ⟨(spec_c1 7
      [{ reference := some "R2", source := some "ppip", closing_date := some 100,
         updated_at := 0 }]
      { reference := some "R2", source := some "ppip", closing_date := some (.aware 200) }
      { reference := some "R2", source := some "ppip", closing_date := some 100,
        updated_at := 0 } rfl).1 rfl (by decide),
   (spec_c1 7
      [{ reference := some "R2", source := some "ppip", closing_date := some 100,
         updated_at := 0 }]
      { reference := some "R2", source := some "ppip", closing_date := some (.naive 100) }
      { reference := some "R2", source := some "ppip", closing_date := some 100,
        updated_at := 0 } rfl).2 (Or.inr (by decide))⟩

/-- C3 counterexample: the claim fails on both of its legs.  First, for
a dated candidate of the real pipeline the parse result is
timezone-aware while the stored column value is naive, so the second
upsert of the very same candidate re-takes the update branch: after
upserts at times 1 and 2, the single stored row carries updatedAt = 2,
not the claimed unchanged 1, and the store differs from its
one-upsert state.  Second, the `unique=True` constraint on `reference`
makes the insert of a candidate whose reference duplicates the other
source's row fail and roll back, so two (here even three) upserts leave
zero stored records for that (reference, source) pair instead of
exactly one. -/
theorem spec_c3_cex :
    saveToDb 2 (saveToDb 1 []
        { reference := some "RA", source := some "mygov",
          closing_date := some (.aware 100) })
        { reference := some "RA", source := some "mygov",
          closing_date := some (.aware 100) } ≠
      saveToDb 1 []
        { reference := some "RA", source := some "mygov",
          closing_date := some (.aware 100) } ∧
    (saveToDb 2 (saveToDb 1 []
        { reference := some "RA", source := some "mygov",
          closing_date := some (.aware 100) })
        { reference := some "RA", source := some "mygov",
          closing_date := some (.aware 100) }).map (fun r => r.updated_at) = [2] ∧
    (saveToDb 1 []
        { reference := some "RA", source := some "mygov",
          closing_date := some (.aware 100) }).map (fun r => r.updated_at) = [1] ∧
    countKey (some "R") (some "ppip")
      (saveToDb 3 (saveToDb 2 (saveToDb 1 []
          { reference := some "R", source := some "mygov",
            closing_date := some (.naive 5) })
          { reference := some "R", source := some "ppip",
            closing_date := some (.naive 5) })
          { reference := some "R", source := some "ppip",
            closing_date := some (.naive 5) }) = 0 :=
  ⟨by decide, by decide, by decide, by decide⟩

/-- C3 (amended): the upsert is idempotent only for candidates whose
closingDate is null or parses timezone-naive — for those, a second
upsert changes nothing and updatedAt is untouched.  A candidate carrying
a timezone-aware closingDate (every dated candidate of the real
pipeline) re-takes the update branch on every call that finds its key,
rewriting the naive wall clock and bumping updatedAt each time, because
the stored naive value never equals the aware incoming one.  Exactly one
stored record holds the key after two upserts provided no stored row
carries the candidate's reference under a different source; when such a
cross-source reference collision exists, the `unique=True` column
constraint rejects the insert and the upsert stores nothing at all.  In
every case, no sequence of sequential upserts ever produces two stored
records with the same (reference, source) pair. -/
theorem spec_c3 :
    (∀ now1 now2 store c,
      (c.closing_date = none ∨ ∃ t, c.closing_date = some (PyDateTime.naive t)) →
      saveToDb now2 (saveToDb now1 store c) c = saveToDb now1 store c) ∧
    (∀ now store c t ex, c.closing_date = some (PyDateTime.aware t) →
      store.find? (keyMatches c.reference c.source) = some ex →
      ∃ l1 l2, store = l1 ++ ex :: l2 ∧
        saveToDb now store c =
          l1 ++ { ex with closing_date := some t, updated_at := now } :: l2) ∧
    (∀ now1 now2 store c, uniqueKeys store →
      (∀ r ∈ store, r.reference = c.reference → r.source = c.source) →
      countKey c.reference c.source (saveToDb now2 (saveToDb now1 store c) c) = 1) ∧
    (∀ now store c, store.find? (keyMatches c.reference c.source) = none →
      c.reference.isSome = true →
      store.any (fun r => r.reference == c.reference) = true →
      saveToDb now store c = store) ∧
    (∀ ops : List (Int × Candidate),
      uniqueKeys (ops.foldl (fun s oc => saveToDb oc.1 s oc.2) [])) := by
  refine ⟨saveToDb_idem, ?_, ?_, ?_, ?_⟩
  · intro now store c t ex hclo hfind
    obtain ⟨l1, l2, hdecomp, hl1, hex⟩ := find?_decomp hfind
    refine ⟨l1, l2, hdecomp, ?_⟩
    have hcond : (c.closing_date.isSome && pyNeStored ex.closing_date c.closing_date) = true := by
      simp [hclo, pyNeStored_aware]
    unfold saveToDb
    rw [hfind]
    simp only [hcond, if_true]
    rw [hdecomp, updateFirst_append _ _ _ _ l1 l2 ex hl1 hex, hclo]
    simp [dbNaive]
  · intro now1 now2 store c h hnoc
    have h1 : countKey c.reference c.source (saveToDb now1 store c) = 1 :=
      countKey_saveToDb now1 store c h hnoc
    cases hf2 : (saveToDb now1 store c).find? (keyMatches c.reference c.source) with
    | none =>
      have hall := find?_eq_none_all hf2
      have h0 : countKey c.reference c.source (saveToDb now1 store c) = 0 := by
        unfold countKey
        exact List.countP_eq_zero.mpr (fun r hr => by simp [hall r hr])
      rw [h0] at h1
      exact absurd h1 (by omega)
    | some ex2 =>
      rw [countKey_saveToDb_again now2 (saveToDb now1 store c) c ex2 hf2]
      exact h1
  · intro now store c hfind hrs hany
    unfold saveToDb
    rw [hfind]
    simp [hrs, hany]
  · intro ops
    have hfold : ∀ (l : List (Int × Candidate)) (init : List StoredRecord), uniqueKeys init →
        uniqueKeys (l.foldl (fun s oc => saveToDb oc.1 s oc.2) init) := by
      intro l
      induction l with
      | nil => intro init h; exact h
      | cons op rest ih =>
        intro init h
        exact ih _ (saveToDb_uniqueKeys op.1 init op.2 h)
    exact hfold ops [] (by simp [uniqueKeys])

/-- Witness for C3: a naive-dated candidate upserted twice into the empty
store is idempotent and leaves exactly one matching record; an
aware-dated candidate with a matched row takes the update branch; and a
cross-source duplicate reference blocks the insert. -/
theorem spec_c3_witness :
    saveToDb 2 (saveToDb 1 []
        { reference := some "R3", source := some "mygov", closing_date := some (.naive 50) })
        { reference := some "R3", source := some "mygov", closing_date := some (.naive 50) } =
      saveToDb 1 []
        { reference := some "R3", source := some "mygov", closing_date := some (.naive 50) } ∧
    countKey (some "R3") (some "mygov")
      (saveToDb 2 (saveToDb 1 []
          { reference := some "R3", source := some "mygov", closing_date := some (.naive 50) })
          { reference := some "R3", source := some "mygov", closing_date := some (.naive 50) }) = 1 ∧
    (∃ l1 l2,
      ([{ reference := some "RA", source := some "mygov", closing_date := some 100,
          updated_at := 0 }] : List StoredRecord) =
        l1 ++ ({ reference := some "RA", source := some "mygov", closing_date := some 100,
                 updated_at := 0 } : StoredRecord) :: l2 ∧
      saveToDb 4
        [{ reference := some "RA", source := some "mygov", closing_date := some 100,
           updated_at := 0 }]
        { reference := some "RA", source := some "mygov", closing_date := some (.aware 100) } =
        l1 ++ { ({ reference := some "RA", source := some "mygov", closing_date := some 100,
                   updated_at := 0 } : StoredRecord) with
                closing_date := some 100, updated_at := 4 } :: l2) ∧
    saveToDb 9 [{ reference := some "R", source := some "mygov" }]
      { reference := some "R", source := some "ppip" } =
      [{ reference := some "R", source := some "mygov" }] :=
  ⟨spec_c3.1 1 2 []
      { reference := some "R3", source := some "mygov", closing_date := some (.naive 50) }
      (Or.inr ⟨50, rfl⟩),
   spec_c3.2.2.1 1 2 []
      { reference := some "R3", source := some "mygov", closing_date := some (.naive 50) }
      (by simp [uniqueKeys]) (by simp),
   spec_c3.2.1 4
      [{ reference := some "RA", source := some "mygov", closing_date := some 100,
         updated_at := 0 }]
      { reference := some "RA", source := some "mygov", closing_date := some (.aware 100) }
      100
      { reference := some "RA", source := some "mygov", closing_date := some 100,
        updated_at := 0 } rfl rfl,
   spec_c3.2.2.2.1 9 [{ reference := some "R", source := some "mygov" }]
      { reference := some "R", source := some "ppip" } rfl rfl (by decide)⟩

/-! ### Claims about the fetcher -/

/-- C9: on an HTTP 429 the fetcher sleeps for the Retry-After value
(60 seconds when the header is absent) and re-issues the same request,
unboundedly: against an upstream that answers 429 forever, the call does
not terminate within any finite number of attempts.  The 5-attempt
transport retry is irrelevant here, since its status list (500, 502, 503,
504) does not include 429. -/
theorem spec_c9 :
    (∀ oracle : Nat → HttpResponse, ∀ fuel attempt slept,
        (∀ k, (oracle k).status = 429) →
        makeRequest oracle fuel attempt slept = none) ∧
    (∀ oracle : Nat → HttpResponse, ∀ fuel attempt slept,
        (oracle attempt).status = 429 →
        makeRequest oracle (fuel + 1) attempt slept =
          makeRequest oracle fuel (attempt + 1)
            (slept + ((oracle attempt).retryAfter.getD 60))) := by
  constructor
  · intro oracle fuel
    induction fuel with
    | zero => intro attempt slept _; rfl
    | succ n ih =>
      intro attempt slept h
      unfold makeRequest
      simp only [h attempt]
      exact ih (attempt + 1) (slept + ((oracle attempt).retryAfter.getD 60)) h
  · intro oracle fuel attempt slept h
    conv_lhs => unfold makeRequest
    simp [h]

/-- Witness for C9: an upstream that always answers 429 with no
Retry-After header; no result within 5 attempts, and one step retries
after the default 60-second sleep. -/
theorem spec_c9_witness :
    makeRequest (fun _ => { status := 429 }) 5 0 0 = none ∧
    makeRequest (fun _ => { status := 429 }) 5 0 0 =
      makeRequest (fun _ => { status := 429 }) 4 1 60 :=
  ⟨spec_c9.1 (fun _ => { status := 429 }) 5 0 0 (fun _ => rfl),
   spec_c9.2 (fun _ => { status := 429 }) 4 0 0 rfl⟩

/-! ### Claims about the read-side query -/

/-- C10: the offline flag of the read-side query filters nothing, because
the formatter unconditionally marks every view as available offline: for
every store state and filter combination the offline and non-offline
results coincide. -/
theorem spec_c10 (now : Int) (store : List StoredRecord)
    (status category entity : Option String) (daysRemaining : Option Int) :
    getMobileTenders now store status category entity daysRemaining true =
      getMobileTenders now store status category entity daysRemaining false := by
  unfold getMobileTenders
  rw [List.filter_eq_self.mpr, List.filter_eq_self.mpr]
  · intro v _
    rfl
  · intro v hv
    obtain ⟨r, _, rfl⟩ := List.mem_map.mp hv
    simp [offline_available_format]

/-- C8 counterexample: a store holding a dated record "A" (closingDate =
some 100) and a null-dated record "B"; the unfiltered query returns "B"
before "A" — the null-dated record is placed before, not after, the dated
one, because SQLite's ascending order puts NULLs first. -/
theorem spec_c8_cex :
    ({ reference := some "A", closing_date := some 100 } : StoredRecord).closing_date =
      some 100 ∧
    ({ reference := some "B" } : StoredRecord).closing_date = none ∧
    (getMobileTenders 0
        [{ reference := some "A", closing_date := some 100 },
         { reference := some "B" }]
        none none none none false).map (fun v => v.reference) =
      [some "B", some "A"] :=
  ⟨rfl, rfl, by decide⟩

/-- C8 (amended): the rows returned by the read-side query are ordered by
closingDate ascending with every null-dated record placed before (not
after) all dated records — the order `recLe` puts `none` first — and the
returned views are exactly these rows formatted, in that order. -/
theorem spec_c8 (now : Int) (store : List StoredRecord)
    (status category entity : Option String) (daysRemaining : Option Int) :
    (queryRecords now store status category entity daysRemaining).Sorted recLe ∧
    getMobileTenders now store status category entity daysRemaining false =
      (queryRecords now store status category entity daysRemaining).map
        (fun r => formatTenderForMobile now (mkViewInput r)) := by
  constructor
  · unfold queryRecords
    exact List.sorted_insertionSort recLe _
  · unfold getMobileTenders
    rw [List.filter_eq_self.mpr]
    intro v _
    rfl

end TenderScraper
